import Mathlib

/-!
Verification of the Medical-Agent pricing/matching engine
(`backend/app/main.py`) against its specification.

The embedding models:
* the HCPCS charge index built by `load_hcpcs_database`,
* `lookup_hcpcs_code` (code lookup with setting / billing-class filters),
* `find_similar_cheaper_codes` (keyword-scored cheaper-alternative search),
* `parse_charge`, `detect_duplicates`,
* the merge step of `analyze_bill` (per-instance results and savings).

Python strings are modelled by `String`, but every string operation used by
the source is re-implemented structurally over `List Char` so that concrete
evaluations reduce inside the kernel.  Python floats are modelled by `ℚ`:
every numeric operation the source performs on charges (parsing decimal
literals, comparison, minimum, summation) is exact on the values involved,
so `ℚ` and IEEE semantics agree on everything stated here.  Python
exceptions are modelled by `Except Unit`.
-/

namespace MedicalAgent

/-- Decidable equality for modelled raised-or-returned outcomes. -/
instance exceptDecEq {ε α : Type} [DecidableEq ε] [DecidableEq α] : DecidableEq (Except ε α)
  | .ok x, .ok y =>
    if h : x = y then .isTrue (congrArg Except.ok h)
    else .isFalse (fun hh => h (Except.ok.inj hh))
  | .ok _, .error _ => .isFalse (fun hh => Except.noConfusion hh)
  | .error _, .ok _ => .isFalse (fun hh => Except.noConfusion hh)
  | .error x, .error y =>
    if h : x = y then .isTrue (congrArg Except.error h)
    else .isFalse (fun hh => h (Except.error.inj hh))

/-! ## String primitives (structural models of the Python string operations) -/

/-- Model of `str.lower` for ASCII letters (the only case the dataset and
claims exercise). -/
def lcChar (c : Char) : Char :=
  if c.toNat ≥ 65 ∧ c.toNat ≤ 90 then Char.ofNat (c.toNat + 32) else c

/-- Model of Python `s.lower()`. -/
def pyLower (s : String) : String := String.mk (s.data.map lcChar)

/-- Result of `listDropPrefix s p` is `some rest` when `p` is a leading
segment of `s`. -/
def listDropPrefix : List Char → List Char → Option (List Char)
  | s, [] => some s
  | [], _ :: _ => none
  | c :: cs, p :: ps => if c = p then listDropPrefix cs ps else none

def listContainsAux (pat : List Char) : List Char → Bool
  | [] => (listDropPrefix [] pat).isSome
  | c :: cs => (listDropPrefix (c :: cs) pat).isSome || listContainsAux pat cs

/-- Model of Python `pat in s` (substring containment). -/
def strContains (s pat : String) : Bool := listContainsAux pat.data s.data

def splitWSAux : List Char → List Char → List String
  | cur, [] => if cur.isEmpty then [] else [String.mk cur.reverse]
  | cur, c :: cs =>
    if c.isWhitespace then
      (if cur.isEmpty then [] else [String.mk cur.reverse]) ++ splitWSAux [] cs
    else splitWSAux (c :: cur) cs

/-- Model of Python `s.split()` (split on whitespace runs, dropping empties). -/
def pySplit (s : String) : List String := splitWSAux [] s.data

/-- Model of Python `s.replace(c, "")` for a single-character pattern. -/
def removeChar (ch : Char) (s : String) : String :=
  String.mk (s.data.filter (fun c => c ≠ ch))

/-- Model of Python `s.strip()`. -/
def pyStrip (s : String) : String :=
  String.mk (((s.data.dropWhile (·.isWhitespace)).reverse.dropWhile (·.isWhitespace)).reverse)

/-! ## Data model

`Charge` is one price-variant record of the disclosure dataset
(`standard_charges` element); `Entry` is one value of the
`HCPCS_DATABASE` dict; the index itself is an insertion-ordered
association list, exactly like a Python dict. -/

structure Charge where
  gross_charge : Option ℚ
  discounted_cash : Option ℚ
  setting : Option String
  billing_class : Option String
  modifiers : Option (List String)
deriving DecidableEq

structure Entry where
  description : Option String
  code : String
  standard_charges : List Charge
  revenue_code : Option String
deriving DecidableEq

/-- The `HCPCS_DATABASE` dict: insertion-ordered, keys unique by construction. -/
abbrev DB := List (String × Entry)

/-- Python truthiness of an optional string (`None` and `""` are falsy). -/
def optTruthy : Option String → Bool
  | none => false
  | some s => s != ""

/-! ## load_hcpcs_database (main.py lines 87-122) -/

/-- One element of a record's `code_information` list. -/
structure CodeInfo where
  type : Option String
  code : Option String
deriving DecidableEq

/-- One record of `standard_charge_information`. -/
structure SCRecord where
  description : Option String
  code_information : List CodeInfo
  standard_charges : List Charge
deriving DecidableEq

/-- A record as found while iterating the parsed JSON: either a well-formed
record dict, or a value on which the attribute accesses of the loop body
raise (e.g. a non-dict element). -/
inductive RawRecord where
  | ok (r : SCRecord)
  | malformed
deriving DecidableEq

/-- The source document: missing file, a file `json.load` rejects, or a
parsed top-level object with its `standard_charge_information` list. -/
inductive SourceDoc where
  | absent
  | malformedJson
  | parsed (records : List RawRecord)
deriving DecidableEq

/-- Model of `next((c.get('code') for c in codes if c.get('type') == 'RC'), None)`. -/
def revenueCodeOf (codes : List CodeInfo) : Option String :=
  match codes.find? (fun c => c.type == some "RC") with
  | some c => c.code
  | none => none

/-- The dict value stored for `code` when record `r` is indexed. -/
def entryOf (r : SCRecord) (code : String) : Entry :=
  { description := r.description
    code := code
    standard_charges := r.standard_charges
    revenue_code := revenueCodeOf r.code_information }

/-- Body of the inner `for code_info in codes` loop: insert `code` only when
its type tag is HCPCS, the code value is truthy, and the key is new. -/
def insertCI (r : SCRecord) (db : DB) (ci : CodeInfo) : DB :=
  if ci.type == some "HCPCS" then
    match ci.code with
    | some code =>
      if code == "" then db
      else if (db.find? (fun p => p.1 == code)).isSome then db
      else db ++ [(code, entryOf r code)]
    | none => db
  else db

/-- Processing of one well-formed record. -/
def insertCodes (db : DB) (r : SCRecord) : DB :=
  r.code_information.foldl (insertCI r) db

/-- The `for entry in data.get('standard_charge_information', [])` loop.
A malformed record raises inside the loop body; the exception is caught by
the surrounding `except`, so the entries already inserted are kept. -/
def loadLoop (db : DB) : List RawRecord → DB
  | [] => db
  | .malformed :: _ => db
  | .ok r :: rest => loadLoop (insertCodes db r) rest

/-- Model of `load_hcpcs_database`: an absent file returns early, a JSON parse error
is caught before any insertion; otherwise the records are indexed in order.
In every case the function returns normally (all failures are caught). -/
def load_hcpcs_database : SourceDoc → DB
  | .absent => []
  | .malformedJson => []
  | .parsed records => loadLoop [] records

/-- A record carries HCPCS code `k` (with `k` truthy). -/
def ciMatches (ci : CodeInfo) (k : String) : Bool :=
  ci.type == some "HCPCS" && ci.code == some k

def recordHasCode (r : SCRecord) (k : String) : Bool :=
  r.code_information.any (fun ci => ciMatches ci k)

/-- A source document is malformed: unparseable JSON, or a parsed document
containing a record on which the loop body raises. -/
def docMalformed : SourceDoc → Bool
  | .absent => false
  | .malformedJson => true
  | .parsed records => records.any (fun r => match r with | .malformed => true | .ok _ => false)

/-! ## lookup_hcpcs_code (main.py lines 128-179) -/

/-- One element of the returned `standard_charges` list (a projection of the
variant's fields, built at lines 159-167). -/
structure ChargeInfo where
  gross_charge : Option ℚ
  discounted_cash : Option ℚ
  setting : Option String
  billing_class : Option String
  modifiers : Option (List String)
deriving DecidableEq

def chargeInfoOf (c : Charge) : ChargeInfo :=
  ⟨c.gross_charge, c.discounted_cash, c.setting, c.billing_class, c.modifiers⟩

inductive LookupResult where
  | notFound (code message : String)
  | found (code : String) (description : Option String) (revenue_code : Option String)
      (standard_charges : List ChargeInfo) (num_charge_variants : Nat)
deriving DecidableEq

/-- Model of `(not setting or c.get('setting') in ['both', setting])`. -/
def settingOk (setting : Option String) (c : Charge) : Bool :=
  !optTruthy setting ||
    (match c.setting with
     | some s => s == "both" || some s == setting
     | none => false)

/-- Model of `(not billing_class or c.get('billing_class') == billing_class)`. -/
def classOk (billing_class : Option String) (c : Charge) : Bool :=
  !optTruthy billing_class || c.billing_class == billing_class

/-- Model of `lookup_hcpcs_code`.  The found branch first logs
`entry.get('description', 'No description')[:60]`: the key is always
present, so a stored `None` description reaches the slice and raises
`TypeError` — modelled by `Except.error`. -/
def lookup_hcpcs_code (db : DB) (code : String) (setting billing_class : Option String) :
    Except Unit LookupResult :=
  match db.find? (fun p => p.1 == code) with
  | none => .ok (.notFound code "Code not found in UCSF standard charges database")
  | some (_, entry) =>
    match entry.description with
    | none => .error ()
    | some _ =>
      let charges := entry.standard_charges
      let filtered_charges :=
        if optTruthy setting || optTruthy billing_class then
          charges.filter (fun c => settingOk setting c && classOk billing_class c)
        else charges
      let charge_info := (filtered_charges.take 5).map chargeInfoOf
      .ok (.found code entry.description entry.revenue_code charge_info charges.length)

/-! ## find_similar_cheaper_codes (main.py lines 182-238) -/

def common_words : List String :=
  ["the", "a", "an", "and", "or", "for", "with", "of", "in", "to", "from"]

/-- Keyword extraction: whitespace tokens longer than 3 characters,
lower-cased, with stop words removed. -/
def keywordsOf (description : String) : List String :=
  (pySplit description).filterMap (fun word =>
    if word.length > 3 && !(common_words.contains (pyLower word)) then
      some (pyLower word)
    else none)

/-- Model of `if c.get('gross_charge')`: the variant contributes its gross charge to
the minimum only when the value is present and truthy (`0` is falsy). -/
def truthyGross (c : Charge) : Option ℚ :=
  match c.gross_charge with
  | some g => if g == 0 then none else some g
  | none => none

def minQ (a b : ℚ) : ℚ := if a ≤ b then a else b

/-- Python `min(seq, default=inf)`: `none` stands for the infinite default,
which the `min_price < max_price` test then always rejects. -/
def listMinQ : List ℚ → Option ℚ
  | [] => none
  | x :: xs => some (xs.foldl minQ x)

def minPrice? (e : Entry) : Option ℚ :=
  listMinQ (e.standard_charges.filterMap truthyGross)

structure AltCandidate where
  code : String
  description : Option String
  min_price : ℚ
  match_score : Nat
  revenue_code : Option String
deriving DecidableEq

/-- Model of `sum(1 for keyword in keywords if keyword in entry_desc)`: keyword
tokens are counted with multiplicity, against the lower-cased description. -/
def entryMatches (keywords : List String) (e : Entry) : Nat :=
  keywords.countP (fun keyword => strContains (pyLower (e.description.getD "")) keyword)

/-- The body of the scan keeps an entry when it has ≥ 2 keyword hits, a
non-empty variant list, and a finite minimum price below the ceiling. -/
def qualifiesB (keywords : List String) (max_price : ℚ) (e : Entry) : Bool :=
  decide (2 ≤ entryMatches keywords e) && !e.standard_charges.isEmpty &&
    (match minPrice? e with
     | some m => decide (m < max_price)
     | none => false)

def candOf (keywords : List String) (p : String × Entry) : AltCandidate :=
  { code := p.1
    description := p.2.description
    min_price := (minPrice? p.2).getD 0
    match_score := entryMatches keywords p.2
    revenue_code := p.2.revenue_code }

/-- Model of `for code, entry in HCPCS_DATABASE.items()`: candidates are collected in
index order; `entry.get('description', '').lower()` raises
`AttributeError` on a stored `None` description (the key is present). -/
def scanEntries (keywords : List String) (max_price : ℚ) : DB → Except Unit (List AltCandidate)
  | [] => .ok []
  | (code, entry) :: rest =>
    match entry.description with
    | none => .error ()
    | some d =>
      let entry_desc := pyLower d
      let nMatches := keywords.countP (fun keyword => strContains entry_desc keyword)
      let cand : Option AltCandidate :=
        if nMatches < 2 then none
        else if entry.standard_charges.isEmpty then none
        else
          match minPrice? entry with
          | some min_price =>
            if min_price < max_price then
              some { code := code
                     description := entry.description
                     min_price := min_price
                     match_score := nMatches
                     revenue_code := entry.revenue_code }
            else none
          | none => none
      match scanEntries keywords max_price rest with
      | .error e => .error e
      | .ok l => .ok (match cand with | some c => c :: l | none => l)

/-- The sort key `(-match_score, min_price)`, as the order it induces. -/
def altOrd (a b : AltCandidate) : Prop :=
  b.match_score < a.match_score ∨
    (a.match_score = b.match_score ∧ a.min_price ≤ b.min_price)

instance altOrdDec : DecidableRel altOrd := fun a b => by
  unfold altOrd
  infer_instance

/-- Model of `find_similar_cheaper_codes`.  Python's `list.sort` is a stable sort by
the key `(-match_score, min_price)`; `List.insertionSort altOrd` is the
stable sort by the same order, so both produce the identical list. -/
def find_similar_cheaper_codes (db : DB) (description : String) (max_price : ℚ)
    (limit : Nat) : Except Unit (List AltCandidate) :=
  if description == "" then .ok []
  else
    let keywords := keywordsOf description
    if keywords.isEmpty then .ok []
    else
      match scanEntries keywords max_price db with
      | .error e => .error e
      | .ok similar_codes => .ok ((List.insertionSort altOrd similar_codes).take limit)

/-! ## parse_charge (main.py lines 285-294) -/

def digitsVal (cs : List Char) : Nat := cs.foldl (fun n c => n * 10 + (c.toNat - 48)) 0

/-- Model of Python `float(s)` restricted to plain decimal literals
(optional sign, digits, optional single point): `none` models `ValueError`.
The source never feeds `float` an exponent / infinity / nan form that
parses, so the restriction only widens the set of inputs mapped to the
caught `ValueError`. -/
def pyFloat? (s : String) : Option ℚ :=
  let cs := s.data
  let signAndDigits : Bool × List Char :=
    match cs with
    | '-' :: rest => (true, rest)
    | '+' :: rest => (false, rest)
    | _ => (false, cs)
  let isNeg := signAndDigits.1
  let body := signAndDigits.2
  let intPart := body.takeWhile (·.isDigit)
  let rest := body.dropWhile (·.isDigit)
  let signed : ℚ → ℚ := fun v => if isNeg then -v else v
  match rest with
  | [] => if intPart.isEmpty then none else some (signed (digitsVal intPart : ℚ))
  | '.' :: frac =>
    if frac.all (·.isDigit) && !(intPart.isEmpty && frac.isEmpty) then
      some (signed ((digitsVal intPart : ℚ) + (digitsVal frac : ℚ) / (10 : ℚ) ^ frac.length))
    else none
  | _ => none

/-- Model of `parse_charge`: strip `$` and `,`, trim, parse; `0.0` on falsy input or
`ValueError`.  Total — no code path raises. -/
def parse_charge (charge_str : Option String) : ℚ :=
  match charge_str with
  | none => 0
  | some s =>
    if s == "" then 0
    else
      let cleaned := pyStrip (removeChar ',' (removeChar '$' s))
      match pyFloat? cleaned with
      | some v => v
      | none => 0

/-! ## detect_duplicates (main.py lines 297-301) -/

structure HCPCSCode where
  code : String
  description : Option String
  charge : Option String
  units : Option String
  revenue_code : Option String
deriving DecidableEq

/-- One step of `collections.Counter`: `d[x] = d.get(x, 0) + 1` on an
insertion-ordered dict. -/
def bump (m : List (String × Nat)) (k : String) : List (String × Nat) :=
  if (m.find? (fun p => p.1 == k)).isSome then
    m.map (fun p => if p.1 == k then (p.1, p.2 + 1) else p)
  else m ++ [(k, 1)]

def counterOf (l : List String) : List (String × Nat) := l.foldl bump []

/-- Model of `detect_duplicates`: the Counter restricted to counts above 1. -/
def detect_duplicates (codes : List HCPCSCode) : List (String × Nat) :=
  (counterOf (codes.map (fun h => h.code))).filter (fun p => p.2 > 1)

/-! ## Merge step of analyze_bill (main.py lines 481-514) -/

structure CodeValidation where
  code : String
  status : String
  reasoning : String
deriving DecidableEq

structure CodeAnalysis where
  code : String
  description : Option String
  revenue_code : Option String
  status : String
  reasoning : String
  billed_charge : ℚ
deriving DecidableEq

/-- One step of the dict comprehension `{v.code: v for v in validations}`
(an overwrite keeps the original position; the later value wins). -/
def dictUpsert (m : List (String × CodeValidation)) (k : String) (v : CodeValidation) :
    List (String × CodeValidation) :=
  if (m.find? (fun p => p.1 == k)).isSome then
    m.map (fun p => if p.1 == k then (k, v) else p)
  else m ++ [(k, v)]

def validation_map (vs : List CodeValidation) : List (String × CodeValidation) :=
  vs.foldl (fun m v => dictUpsert m v.code v) []

def vget? (m : List (String × CodeValidation)) (k : String) : Option CodeValidation :=
  (m.find? (fun p => p.1 == k)).map (fun p => p.2)

/-- The per-instance loop body: validation result (with the accepted
fallback), parsed charge, and the built `CodeAnalysis`. -/
def analysisOf (vmap : List (String × CodeValidation)) (hcpcs : HCPCSCode) : CodeAnalysis :=
  let val := (vget? vmap hcpcs.code).getD
    { code := hcpcs.code, status := "accepted", reasoning := "No validation issues found." }
  { code := hcpcs.code
    description := hcpcs.description
    revenue_code := hcpcs.revenue_code
    status := val.status
    reasoning := val.reasoning
    billed_charge := parse_charge hcpcs.charge }

/-- One iteration of the `for hcpcs in codes` loop at lines 488-514:
append this instance's `CodeAnalysis`, and add its charge to `savings`
when its status is disputed. -/
def mergeStep (vmap : List (String × CodeValidation)) (acc : List CodeAnalysis × ℚ)
    (hcpcs : HCPCSCode) : List CodeAnalysis × ℚ :=
  let a := analysisOf vmap hcpcs
  (acc.1 ++ [a], if a.status == "disputed" then acc.2 + a.billed_charge else acc.2)

/-- Steps at lines 481-514 of `analyze_bill`: one `CodeAnalysis` per code
instance in order, accumulating disputed charges into `savings`. -/
def analyze_merge (codes : List HCPCSCode) (validations : List CodeValidation) :
    List CodeAnalysis × ℚ :=
  codes.foldl (mergeStep (validation_map validations)) ([], 0)

/-! ## Auxiliary definitions used by the statements -/

/-- Per-key count held by a Counter association list. -/
def keyCount (m : List (String × Nat)) (k : String) : Nat :=
  ((m.find? (fun p => p.1 == k)).map (fun p => p.2)).getD 0

/-- The Counter invariant: unique keys, all counts positive. -/
def counterWF (m : List (String × Nat)) : Prop :=
  (m.map Prod.fst).Nodup ∧ ∀ p ∈ m, 1 ≤ p.2

/-- The variant-retention condition exactly as the specification words it:
keep a variant iff (setting unset OR the variant setting is "both" or
equals the requested setting) AND (billing class unset OR equal). -/
def claimKeep (setting billing_class : Option String) (c : Charge) : Prop :=
  (setting = none ∨ c.setting = some "both" ∨ c.setting = setting) ∧
  (billing_class = none ∨ c.billing_class = billing_class)

instance claimKeepDec (setting billing_class : Option String) (c : Charge) :
    Decidable (claimKeep setting billing_class c) := by
  unfold claimKeep
  infer_instance

/-- Whether a modelled call returned normally (no exception). -/
def exceptIsOk {ε α : Type} : Except ε α → Bool
  | .ok _ => true
  | .error _ => false

instance altOrdTotal : IsTotal AltCandidate altOrd := by
  constructor
  intro a b
  rcases Nat.lt_trichotomy a.match_score b.match_score with h | h | h
  · exact Or.inr (Or.inl h)
  · rcases le_total a.min_price b.min_price with h2 | h2
    · exact Or.inl (Or.inr ⟨h, h2⟩)
    · exact Or.inr (Or.inr ⟨h.symm, h2⟩)
  · exact Or.inl (Or.inl h)

instance altOrdTrans : IsTrans AltCandidate altOrd := by
  constructor
  intro a b c hab hbc
  rcases hab with h1 | ⟨h1, h1q⟩
  · rcases hbc with h2 | ⟨h2, _⟩
    · exact Or.inl (h2.trans h1)
    · exact Or.inl (h2 ▸ h1)
  · rcases hbc with h2 | ⟨h2, h2q⟩
    · exact Or.inl (h1 ▸ h2)
    · exact Or.inr ⟨h1.trans h2, h1q.trans h2q⟩

/-! ## Theorems -/

/-! ### Claim C8: parse_charge -/

/-- Claim C8: `parse_charge` is total (its type is `Option String → ℚ`, and
every branch returns; nothing is thrown): it strips the currency symbol,
thousands separators and surrounding whitespace of well-formed inputs and
returns the parsed decimal, and returns 0 on absent, empty or malformed
input; in particular on "$1,200.50", `None` and "garbage". -/
theorem parse_charge_spec :
    parse_charge none = 0 ∧
    parse_charge (some "") = 0 ∧
    parse_charge (some "$1,200.50") = 1200.50 ∧
    parse_charge (some "garbage") = 0 ∧
    parse_charge (some "  $2,000  ") = 2000 := by
  refine ⟨rfl, by decide, ?_, by decide, by decide⟩
  have h : parse_charge (some "$1,200.50") =
      ((digitsVal "1200".data : ℚ) + (digitsVal "50".data : ℚ) / (10 : ℚ) ^ (2 : Nat)) := rfl
  have hint : digitsVal "1200".data = 1200 := by decide
  have hfrac : digitsVal "50".data = 50 := by decide
  rw [h, hint, hfrac]
  norm_num

/-! ### Claim C9: detect_duplicates -/

theorem find?_map_keyfix (f : String × Nat → String × Nat)
    (hf : ∀ q, (f q).1 = q.1) (m : List (String × Nat)) (c : String) :
    (m.map f).find? (fun p => p.1 == c) = (m.find? (fun p => p.1 == c)).map f := by
  induction m with
  | nil => rfl
  | cons q m ih =>
    by_cases hq : q.1 = c
    · rw [List.map_cons, List.find?_cons_of_pos, List.find?_cons_of_pos]
      · rfl
      · simp [hq]
      · simp [hf q, hq]
    · rw [List.map_cons, List.find?_cons_of_neg, List.find?_cons_of_neg]
      · exact ih
      · simp [hq]
      · simp [hf q, hq]

theorem keyCount_bump (m : List (String × Nat)) (k c : String) :
    keyCount (bump m k) c = keyCount m c + (if c = k then 1 else 0) := by
  unfold bump
  cases hf : m.find? (fun p => p.1 == k) with
  | some pk =>
    have hfix : ∀ q : String × Nat,
        ((fun p : String × Nat => if p.1 == k then (p.1, p.2 + 1) else p) q).1 = q.1 := by
      intro q
      by_cases hq : q.1 = k <;> simp [hq]
    simp only [Option.isSome_some, if_true]
    unfold keyCount
    rw [find?_map_keyfix _ hfix]
    by_cases hck : c = k
    · subst hck
      rw [hf]
      have hp1 : pk.1 = c := by simpa using List.find?_some hf
      simp [hp1]
    · cases hfc : m.find? (fun p => p.1 == c) with
      | none => simp [hck]
      | some p =>
        have hp1 : p.1 = c := by simpa using List.find?_some hfc
        simp [hp1, hck]
  | none =>
    simp only [Option.isSome_none, Bool.false_eq_true, if_false]
    unfold keyCount
    rw [List.find?_append]
    by_cases hck : c = k
    · subst hck
      rw [hf]
      simp
    · have hsingle : ([(k, 1)].find? (fun p => p.1 == c)) = none := by
        have hkc : (k == c) = false := by simpa using Ne.symm hck
        simp [List.find?, hkc]
      rw [hsingle]
      simp [hck]

theorem keyCount_foldl_bump (l : List String) :
    ∀ (m : List (String × Nat)) (c : String),
      keyCount (l.foldl bump m) c = keyCount m c + l.count c := by
  induction l with
  | nil => intro m c; simp
  | cons x l ih =>
    intro m c
    rw [List.foldl_cons, ih (bump m x) c, keyCount_bump, List.count_cons]
    have hite : (if c = x then 1 else 0) = (if x == c then 1 else 0) := by
      by_cases h : c = x
      · subst h
        simp
      · have hx : ¬(x == c) = true := by simp [Ne.symm h]
        simp [h, hx]
    rw [hite]
    ring

theorem keyCount_counterOf (l : List String) (c : String) :
    keyCount (counterOf l) c = l.count c := by
  unfold counterOf
  rw [keyCount_foldl_bump]
  simp [keyCount]

theorem counterWF_bump {m : List (String × Nat)} (h : counterWF m) (k : String) :
    counterWF (bump m k) := by
  obtain ⟨hnd, hval⟩ := h
  unfold bump
  by_cases hp : (m.find? (fun p => p.1 == k)).isSome
  · simp only [hp, if_true]
    constructor
    · have : (m.map (fun p => if p.1 == k then (p.1, p.2 + 1) else p)).map Prod.fst
          = m.map Prod.fst := by
        rw [List.map_map]
        apply List.map_congr_left
        intro q _
        by_cases hq : q.1 = k <;> simp [hq]
      rw [this]
      exact hnd
    · intro p hpmem
      obtain ⟨q, hq, hfq⟩ := List.mem_map.mp hpmem
      by_cases hqk : q.1 = k
      · simp only [hqk, beq_self_eq_true, if_true] at hfq
        rw [← hfq]
        simp
      · have hqk' : ¬(q.1 == k) = true := by simp [hqk]
        simp only [hqk', Bool.false_eq_true, if_false] at hfq
        subst hfq
        exact hval q hq
  · have hps : (m.find? (fun p => p.1 == k)).isSome = false := by
      cases hfk : m.find? (fun p => p.1 == k)
      · rfl
      · rw [hfk] at hp
        simp at hp
    simp only [hps, Bool.false_eq_true, if_false]
    constructor
    · rw [List.map_append]
      have hknot : k ∉ m.map Prod.fst := by
        intro hk
        obtain ⟨q, hq, hfq⟩ := List.mem_map.mp hk
        have := List.find?_eq_none.mp (by
          cases hf : m.find? (fun p => p.1 == k)
          · rfl
          · rw [hf] at hp; simp at hp) q hq
        apply this
        simp [hfq]
      simp [List.nodup_append, hnd, hknot]
    · intro p hpmem
      rcases List.mem_append.mp hpmem with hmem | hmem
      · exact hval p hmem
      · simp at hmem
        subst hmem
        exact le_refl 1

theorem counterWF_counterOf (l : List String) : counterWF (counterOf l) := by
  unfold counterOf
  have hgen : ∀ (l : List String) (m : List (String × Nat)),
      counterWF m → counterWF (l.foldl bump m) := by
    intro l
    induction l with
    | nil => intro m hm; exact hm
    | cons x l ih => intro m hm; exact ih (bump m x) (counterWF_bump hm x)
  exact hgen l [] ⟨List.nodup_nil, by intro p hp; cases hp⟩

theorem find?_of_mem_nodupKeys {m : List (String × Nat)}
    (hnd : (m.map Prod.fst).Nodup) {c : String} {n : Nat} (hmem : (c, n) ∈ m) :
    m.find? (fun p => p.1 == c) = some (c, n) := by
  induction m with
  | nil => cases hmem
  | cons q m ih =>
    rcases List.mem_cons.mp hmem with hq | hq
    · subst hq
      simp [List.find?]
    · have hnd' := hnd
      rw [List.map_cons, List.nodup_cons] at hnd'
      have hq1 : (q.1 == c) = false := by
        by_contra hne
        have : q.1 = c := by
          cases hb : (q.1 == c)
          · exact absurd hb hne
          · exact eq_of_beq hb
        apply hnd'.1
        rw [this]
        exact List.mem_map.mpr ⟨(c, n), hq, rfl⟩
      rw [List.find?_cons, hq1]
      exact ih hnd'.2 hq

theorem mem_counter_iff {m : List (String × Nat)} (h : counterWF m) (c : String) (n : Nat) :
    (c, n) ∈ m ↔ (keyCount m c = n ∧ 1 ≤ n) := by
  constructor
  · intro hmem
    refine ⟨?_, h.2 (c, n) hmem⟩
    unfold keyCount
    rw [find?_of_mem_nodupKeys h.1 hmem]
    rfl
  · rintro ⟨hkc, hn⟩
    unfold keyCount at hkc
    cases hf : m.find? (fun p => p.1 == c) with
    | none => rw [hf] at hkc; simp at hkc; omega
    | some p =>
      rw [hf] at hkc
      simp at hkc
      have hp1' : p.1 = c := by simpa using List.find?_some hf
      have hpm : p ∈ m := List.mem_of_find?_eq_some hf
      have : p = (c, n) := by
        cases p
        simp_all
      rw [this] at hpm
      exact hpm

/-- Claim C9: `detect_duplicates` returns exactly the codes occurring more
than once, each mapped to its occurrence count, and its contents are
invariant under permutation of the input (a pure function of the multiset). -/
theorem detect_duplicates_spec (codes codes2 : List HCPCSCode)
    (hperm : codes.Perm codes2) (c : String) (n : Nat) :
    ((c, n) ∈ detect_duplicates codes ↔
      ((codes.map (fun h => h.code)).count c = n ∧ 1 < n)) ∧
    ((c, n) ∈ detect_duplicates codes ↔ (c, n) ∈ detect_duplicates codes2) := by
  have key : ∀ l : List HCPCSCode, ((c, n) ∈ detect_duplicates l ↔
      ((l.map (fun h => h.code)).count c = n ∧ 1 < n)) := by
    intro l
    unfold detect_duplicates
    rw [List.mem_filter]
    rw [mem_counter_iff (counterWF_counterOf (l.map (fun h => h.code))) c n]
    rw [keyCount_counterOf]
    constructor
    · rintro ⟨⟨hc, _⟩, hgt⟩
      exact ⟨hc, by simpa using hgt⟩
    · rintro ⟨hc, hgt⟩
      exact ⟨⟨hc, by omega⟩, by simpa using hgt⟩
  refine ⟨key codes, ?_⟩
  rw [key codes, key codes2]
  rw [(hperm.map (fun h => h.code)).count_eq]

/-- Claim C9 witness: on [A,A,B,C,C,C] the mapping contains A↦2 and C↦3 and
omits B, and a permuted input yields the same mapping contents. -/
theorem detect_duplicates_witness :
    ("A", 2) ∈ detect_duplicates
      [⟨"A", none, none, none, none⟩, ⟨"A", none, none, none, none⟩,
       ⟨"B", none, none, none, none⟩, ⟨"C", none, none, none, none⟩,
       ⟨"C", none, none, none, none⟩, ⟨"C", none, none, none, none⟩] ∧
    ("C", 3) ∈ detect_duplicates
      [⟨"A", none, none, none, none⟩, ⟨"A", none, none, none, none⟩,
       ⟨"B", none, none, none, none⟩, ⟨"C", none, none, none, none⟩,
       ⟨"C", none, none, none, none⟩, ⟨"C", none, none, none, none⟩] ∧
    ("B", 1) ∉ detect_duplicates
      [⟨"A", none, none, none, none⟩, ⟨"A", none, none, none, none⟩,
       ⟨"B", none, none, none, none⟩, ⟨"C", none, none, none, none⟩,
       ⟨"C", none, none, none, none⟩, ⟨"C", none, none, none, none⟩] ∧
    ("A", 2) ∈ detect_duplicates
      [⟨"C", none, none, none, none⟩, ⟨"A", none, none, none, none⟩,
       ⟨"B", none, none, none, none⟩, ⟨"C", none, none, none, none⟩,
       ⟨"C", none, none, none, none⟩, ⟨"A", none, none, none, none⟩] := by
  refine ⟨?_, ?_, ?_, ?_⟩
  · exact (detect_duplicates_spec _ _ (List.Perm.refl _) "A" 2).1.mpr (by decide)
  · exact (detect_duplicates_spec _ _ (List.Perm.refl _) "C" 3).1.mpr (by decide)
  · intro hmem
    have := (detect_duplicates_spec _ _ (List.Perm.refl _) "B" 1).1.mp hmem
    exact absurd this.2 (by decide)
  · exact ((detect_duplicates_spec
      [⟨"A", none, none, none, none⟩, ⟨"A", none, none, none, none⟩,
       ⟨"B", none, none, none, none⟩, ⟨"C", none, none, none, none⟩,
       ⟨"C", none, none, none, none⟩, ⟨"C", none, none, none, none⟩]
      [⟨"C", none, none, none, none⟩, ⟨"A", none, none, none, none⟩,
       ⟨"B", none, none, none, none⟩, ⟨"C", none, none, none, none⟩,
       ⟨"C", none, none, none, none⟩, ⟨"A", none, none, none, none⟩]
      (by decide) "A" 2).2.mp
      ((detect_duplicates_spec _ _ (List.Perm.refl _) "A" 2).1.mpr (by decide)))

/-! ### Claims C4 and C5: index construction -/

theorem find?_insertCI (r : SCRecord) (db : DB) (ci : CodeInfo) (k : String) (hk : k ≠ "") :
    (insertCI r db ci).find? (fun p => p.1 == k) =
      (db.find? (fun p => p.1 == k)).or
        (if ciMatches ci k then some (k, entryOf r k) else none) := by
  unfold insertCI ciMatches
  by_cases ht : (ci.type == some "HCPCS") = true
  · rw [ht]
    simp only [if_true, Bool.true_and]
    cases ci.code with
    | none =>
      simp
    | some code =>
      by_cases hke : code = ""
      · subst hke
        have h1 : ("" == k) = false := by simpa using Ne.symm hk
        simp [h1]
      · have h2 : (code == "") = false := by simpa using hke
        simp only [h2, Bool.false_eq_true, if_false]
        by_cases hck : code = k
        · subst hck
          simp only [beq_self_eq_true, if_true]
          cases hfind : db.find? (fun p => p.1 == code) with
          | some p =>
            simp [hfind]
          | none =>
            simp only [hfind, Option.isSome_none, Bool.false_eq_true, if_false]
            rw [List.find?_append, hfind]
            simp [List.find?]
        · have h3 : (some code == some k) = false := by simpa using hck
          simp only [h3, Bool.false_eq_true, if_false]
          cases hfind : db.find? (fun p => p.1 == code) with
          | some p =>
            simp
          | none =>
            simp only [hfind, Option.isSome_none, Bool.false_eq_true, if_false]
            rw [List.find?_append]
            have h4 : ([(code, entryOf r code)].find? (fun p => p.1 == k)) = none := by
              have h5 : (code == k) = false := by simpa using hck
              simp [List.find?, h5]
            rw [h4]
  · have ht' : (ci.type == some "HCPCS") = false := by
      cases hb : (ci.type == some "HCPCS")
      · rfl
      · exact absurd hb ht
    simp [ht']

theorem find?_insertCodes (r : SCRecord) (k : String) (hk : k ≠ "") :
    ∀ (cis : List CodeInfo) (db : DB),
      (cis.foldl (insertCI r) db).find? (fun p => p.1 == k) =
        (db.find? (fun p => p.1 == k)).or
          (if cis.any (fun ci => ciMatches ci k) then some (k, entryOf r k) else none) := by
  intro cis
  induction cis with
  | nil => intro db; simp
  | cons ci cis ih =>
    intro db
    rw [List.foldl_cons, ih (insertCI r db ci), find?_insertCI r db ci k hk, List.any_cons]
    by_cases hci : ciMatches ci k = true
    · simp [hci, Option.or_assoc]
    · have hci' : ciMatches ci k = false := by
        cases hb : ciMatches ci k
        · rfl
        · exact absurd hb hci
      simp [hci']

theorem find?_loadLoop (k : String) (hk : k ≠ "") :
    ∀ (records : List SCRecord) (db : DB),
      (loadLoop db (records.map RawRecord.ok)).find? (fun p => p.1 == k) =
        (db.find? (fun p => p.1 == k)).or
          ((records.find? (fun r => recordHasCode r k)).map (fun r => (k, entryOf r k))) := by
  intro records
  induction records with
  | nil => intro db; simp [loadLoop]
  | cons r records ih =>
    intro db
    rw [List.map_cons]
    show (loadLoop (insertCodes db r) (records.map RawRecord.ok)).find? _ = _
    rw [ih (insertCodes db r)]
    unfold insertCodes
    rw [find?_insertCodes r k hk]
    by_cases hrc : recordHasCode r k = true
    · have hfc : (r :: records).find? (fun q => recordHasCode q k) = some r := by
        apply List.find?_cons_of_pos
        exact hrc
      rw [hfc]
      unfold recordHasCode at hrc
      simp [hrc, Option.or_assoc]
    · have hrc' : recordHasCode r k = false := by
        cases hb : recordHasCode r k
        · rfl
        · exact absurd hb hrc
      have hfc : (r :: records).find? (fun q => recordHasCode q k) =
          records.find? (fun q => recordHasCode q k) := by
        apply List.find?_cons_of_neg
        simp [hrc']
      rw [hfc]
      unfold recordHasCode at hrc'
      simp [hrc']

theorem nodupKeys_insertCI (r : SCRecord) (ci : CodeInfo) {db : DB}
    (h : (db.map Prod.fst).Nodup) : ((insertCI r db ci).map Prod.fst).Nodup := by
  unfold insertCI
  by_cases ht : (ci.type == some "HCPCS") = true
  · rw [ht]
    simp only [if_true]
    cases ci.code with
    | none => exact h
    | some code =>
      by_cases hke : (code == "") = true
      · simp [hke, h]
      · have hke' : (code == "") = false := by
          cases hb : (code == "")
          · rfl
          · exact absurd hb hke
        simp only [hke', Bool.false_eq_true, if_false]
        cases hfind : db.find? (fun p => p.1 == code) with
        | some p => simp [hfind, h]
        | none =>
          simp only [hfind, Option.isSome_none, Bool.false_eq_true, if_false]
          have hnot : code ∉ db.map Prod.fst := by
            intro hmem
            obtain ⟨q, hq, hfq⟩ := List.mem_map.mp hmem
            have := List.find?_eq_none.mp hfind q hq
            apply this
            simp [hfq]
          rw [List.map_append]
          simp [List.nodup_append, h, hnot]
  · have ht' : (ci.type == some "HCPCS") = false := by
      cases hb : (ci.type == some "HCPCS")
      · rfl
      · exact absurd hb ht
    simp [ht', h]

theorem nodupKeys_loadLoop :
    ∀ (records : List RawRecord) (db : DB), (db.map Prod.fst).Nodup →
      ((loadLoop db records).map Prod.fst).Nodup := by
  intro records
  induction records with
  | nil => intro db h; exact h
  | cons r records ih =>
    intro db h
    cases r with
    | malformed => exact h
    | ok r =>
      show ((loadLoop (insertCodes db r) records).map Prod.fst).Nodup
      apply ih
      unfold insertCodes
      have hgen : ∀ (cis : List CodeInfo) (db : DB), (db.map Prod.fst).Nodup →
          ((cis.foldl (insertCI r) db).map Prod.fst).Nodup := by
        intro cis
        induction cis with
        | nil => intro db h; exact h
        | cons ci cis ih2 =>
          intro db h
          exact ih2 (insertCI r db ci) (nodupKeys_insertCI r ci h)
      exact hgen r.code_information db h

/-- Claim C4: the index never holds two entries for one code, and on
duplicate HCPCS codes across dataset records the first record in dataset
order supplies the indexed entry (description, price variants, revenue
code); later records with the same code are dropped with no effect. -/
theorem load_first_wins (records : List SCRecord) (code : String) (hcode : code ≠ "") :
    ((load_hcpcs_database (.parsed (records.map RawRecord.ok))).map Prod.fst).Nodup ∧
    (load_hcpcs_database (.parsed (records.map RawRecord.ok))).find? (fun p => p.1 == code) =
      (records.find? (fun r => recordHasCode r code)).map (fun r => (code, entryOf r code)) := by
  constructor
  · exact nodupKeys_loadLoop (records.map RawRecord.ok) [] List.nodup_nil
  · show (loadLoop [] (records.map RawRecord.ok)).find? _ = _
    rw [find?_loadLoop code hcode records []]
    rfl

/-- Claim C4 witness: two records share code "J1100"; the index keeps the
first record's description and revenue code, and keys are unique. -/
theorem load_first_wins_witness :
    ((load_hcpcs_database (.parsed (([
        ⟨some "first description", [⟨some "HCPCS", some "J1100"⟩, ⟨some "RC", some "0250"⟩], []⟩,
        ⟨some "second description", [⟨some "HCPCS", some "J1100"⟩], []⟩] : List SCRecord).map
        RawRecord.ok))).map Prod.fst).Nodup ∧
    (load_hcpcs_database (.parsed (([
        ⟨some "first description", [⟨some "HCPCS", some "J1100"⟩, ⟨some "RC", some "0250"⟩], []⟩,
        ⟨some "second description", [⟨some "HCPCS", some "J1100"⟩], []⟩] : List SCRecord).map
        RawRecord.ok))).find? (fun p => p.1 == "J1100") =
      some ("J1100", ⟨some "first description", "J1100", [], some "0250"⟩) := by
  have h := load_first_wins
    [⟨some "first description", [⟨some "HCPCS", some "J1100"⟩, ⟨some "RC", some "0250"⟩], []⟩,
     ⟨some "second description", [⟨some "HCPCS", some "J1100"⟩], []⟩]
    "J1100" (by decide)
  refine ⟨h.1, ?_⟩
  rw [h.2]
  decide

theorem loadLoop_stops_at_malformed :
    ∀ (pre : List SCRecord) (rest : List RawRecord) (db : DB),
      loadLoop db (pre.map RawRecord.ok ++ RawRecord.malformed :: rest) =
        loadLoop db (pre.map RawRecord.ok) := by
  intro pre
  induction pre with
  | nil => intro rest db; rfl
  | cons r pre ih =>
    intro rest db
    rw [List.map_cons, List.cons_append]
    show loadLoop (insertCodes db r) _ = loadLoop (insertCodes db r) _
    exact ih rest (insertCodes db r)

/-- Claim C5 (amended): an absent or JSON-unparseable source document
leaves the index empty and raises nothing; a structurally malformed record
hit mid-iteration stops loading and raises nothing, but the entries
inserted from the records before it are kept — the index can be partially
populated, so load failure is not atomic. -/
theorem load_failure_semantics (pre : List SCRecord) (rest : List RawRecord) :
    load_hcpcs_database .absent = [] ∧
    load_hcpcs_database .malformedJson = [] ∧
    load_hcpcs_database (.parsed (pre.map RawRecord.ok ++ RawRecord.malformed :: rest)) =
      load_hcpcs_database (.parsed (pre.map RawRecord.ok)) :=
  ⟨rfl, rfl, loadLoop_stops_at_malformed pre rest []⟩

/-- Claim C5 counterexample: a malformed document — valid JSON whose second
record is not a record object, so iteration raises there — leaves a
non-empty (partially populated) index, contradicting the claimed
atomicity/emptiness. -/
theorem load_atomicity_counterexample :
    docMalformed (.parsed [
      RawRecord.ok ⟨some "demo description", [⟨some "HCPCS", some "J1100"⟩], []⟩,
      RawRecord.malformed]) = true ∧
    load_hcpcs_database (.parsed [
      RawRecord.ok ⟨some "demo description", [⟨some "HCPCS", some "J1100"⟩], []⟩,
      RawRecord.malformed]) ≠ [] := by
  constructor
  · decide
  · decide

/-! ### Claim C7: lookup on absent codes -/

theorem find?_none_of_not_mem_keys {db : DB} {code : String}
    (h : code ∉ db.map Prod.fst) : db.find? (fun p => p.1 == code) = none := by
  rw [List.find?_eq_none]
  intro p hp hpc
  apply h
  have hpc' : p.1 = code := by simpa using hpc
  exact List.mem_map.mpr ⟨p, hp, hpc'⟩

/-- Claim C7 (amended): for a code not present in the index, lookup returns
normally (never throws) with `found = false`, the queried code, and the
fixed message "Code not found in UCSF standard charges database" — a
message that contains "not found", but is not the literal string
"not found". -/
theorem lookup_not_found (db : DB) (code : String) (setting billing_class : Option String)
    (h : code ∉ db.map Prod.fst) :
    lookup_hcpcs_code db code setting billing_class =
      .ok (.notFound code "Code not found in UCSF standard charges database") ∧
    strContains "Code not found in UCSF standard charges database" "not found" = true := by
  constructor
  · unfold lookup_hcpcs_code
    rw [find?_none_of_not_mem_keys h]
  · decide

/-- Claim C7 witness: lookup of "99999" in a one-entry index without it. -/
theorem lookup_not_found_witness :
    lookup_hcpcs_code [("71045", ⟨some "Chest X-ray", "71045", [], none⟩)] "99999" none none =
      .ok (.notFound "99999" "Code not found in UCSF standard charges database") ∧
    strContains "Code not found in UCSF standard charges database" "not found" = true :=
  lookup_not_found [("71045", ⟨some "Chest X-ray", "71045", [], none⟩)] "99999" none none
    (by decide)

/-- Claim C7 counterexample: the message field returned for an absent code
is the fixed longer string, not the literal string "not found" the claim
names. -/
theorem lookup_message_counterexample :
    lookup_hcpcs_code [] "99999" none none =
      .ok (.notFound "99999" "Code not found in UCSF standard charges database") ∧
    "Code not found in UCSF standard charges database" ≠ "not found" := by
  constructor
  · rfl
  · decide

/-! ### Claim C6: lookup filtering -/

theorem beq_decide (a b : String) : (a == b) = decide (a = b) := by
  by_cases h : a = b <;> simp [h]

theorem source_filter_eq_claimKeep (setting billing_class : Option String) (entry : Entry)
    (hs : setting ≠ some "") (hbc : billing_class ≠ some "") :
    (if optTruthy setting || optTruthy billing_class then
        entry.standard_charges.filter
          (fun c => settingOk setting c && classOk billing_class c)
      else entry.standard_charges) =
    entry.standard_charges.filter (fun c => decide (claimKeep setting billing_class c)) := by
  have hpoint : ∀ c : Charge,
      (settingOk setting c && classOk billing_class c) =
        decide (claimKeep setting billing_class c) := by
    intro c
    rcases c with ⟨g, dcash, cset, cbil, mods⟩
    unfold settingOk classOk claimKeep optTruthy
    cases setting with
    | none =>
      cases billing_class with
      | none => simp
      | some bc =>
        have hbc' : bc ≠ "" := fun he => hbc (by rw [he])
        cases cbil with
        | none => simp [hbc']
        | some cb => simp [hbc', bne, beq_decide]
    | some s =>
      have hs' : s ≠ "" := fun he => hs (by rw [he])
      cases billing_class with
      | none =>
        cases cset with
        | none => simp [hs']
        | some cs => simp [hs', bne, beq_decide]
      | some bc =>
        have hbc' : bc ≠ "" := fun he => hbc (by rw [he])
        cases cset with
        | none => simp [hs', hbc']
        | some cs =>
          cases cbil with
          | none => simp [hs', hbc', bne, beq_decide]
          | some cb => simp [hs', hbc', bne, beq_decide]
  by_cases htr : (optTruthy setting || optTruthy billing_class) = true
  · rw [if_pos htr]
    exact List.filter_congr (fun c _ => hpoint c)
  · have hboth : optTruthy setting = false ∧ optTruthy billing_class = false := by
      cases hs1 : optTruthy setting
      · cases hb1 : optTruthy billing_class
        · exact ⟨rfl, rfl⟩
        · exact absurd (by simp [hs1, hb1]) htr
      · exact absurd (by simp [hs1]) htr
    have hsn : setting = none := by
      cases setting with
      | none => rfl
      | some s =>
        have := hboth.1
        unfold optTruthy at this
        have hse : s = "" := by simpa using this
        exact absurd (by rw [hse]) hs
    have hbn : billing_class = none := by
      cases billing_class with
      | none => rfl
      | some bc =>
        have := hboth.2
        unfold optTruthy at this
        have hbe : bc = "" := by simpa using this
        exact absurd (by rw [hbe]) hbc
    subst hsn
    subst hbn
    simp only [optTruthy, Bool.or_self, Bool.false_eq_true, if_false]
    have : ∀ c ∈ entry.standard_charges, decide (claimKeep none none c) = true := by
      intro c _
      simp [claimKeep]
    exact (List.filter_eq_self.mpr this).symm

/-- Claim C6: for an indexed code (with a present description — see C10),
lookup filters the entry's variants exactly by the claimed condition, keeps
all of them when both filters are unset, and returns the first 5 filtered
variants in source order together with the description, the revenue code,
and the unfiltered variant count. -/
theorem lookup_filter_spec (db : DB) (code : String) (entry : Entry) (d : String)
    (setting billing_class : Option String)
    (hfind : db.find? (fun p => p.1 == code) = some (code, entry))
    (hdesc : entry.description = some d)
    (hs : setting ≠ some "") (hbc : billing_class ≠ some "") :
    lookup_hcpcs_code db code setting billing_class =
      .ok (.found code (some d) entry.revenue_code
        (((entry.standard_charges.filter
            (fun c => decide (claimKeep setting billing_class c))).take 5).map chargeInfoOf)
        entry.standard_charges.length) := by
  unfold lookup_hcpcs_code
  rw [hfind]
  dsimp only
  rw [hdesc]
  dsimp only
  rw [source_filter_eq_claimKeep setting billing_class entry hs hbc]

/-- Claim C6 witness: a concrete lookup with a setting filter keeps exactly
the "both"-setting and matching-setting variants, truncated to 5, and
reports the total variant count 7. -/
theorem lookup_filter_spec_witness :
    lookup_hcpcs_code
      [("71046", ⟨some "Chest X-ray two views", "71046",
        [⟨some 100, none, some "outpatient", some "facility", none⟩,
         ⟨some 200, none, some "both", some "facility", none⟩,
         ⟨some 300, none, some "inpatient", some "facility", none⟩,
         ⟨some 400, none, some "outpatient", some "professional", none⟩,
         ⟨some 500, none, some "outpatient", some "facility", none⟩,
         ⟨some 600, none, some "outpatient", some "facility", none⟩,
         ⟨some 700, none, some "outpatient", some "facility", none⟩], some "0320"⟩)]
      "71046" (some "outpatient") none =
      .ok (.found "71046" (some "Chest X-ray two views") (some "0320")
        [⟨some 100, none, some "outpatient", some "facility", none⟩,
         ⟨some 200, none, some "both", some "facility", none⟩,
         ⟨some 400, none, some "outpatient", some "professional", none⟩,
         ⟨some 500, none, some "outpatient", some "facility", none⟩,
         ⟨some 600, none, some "outpatient", some "facility", none⟩] 7) := by
  have h := lookup_filter_spec
    [("71046", ⟨some "Chest X-ray two views", "71046",
      [⟨some 100, none, some "outpatient", some "facility", none⟩,
       ⟨some 200, none, some "both", some "facility", none⟩,
       ⟨some 300, none, some "inpatient", some "facility", none⟩,
       ⟨some 400, none, some "outpatient", some "professional", none⟩,
       ⟨some 500, none, some "outpatient", some "facility", none⟩,
       ⟨some 600, none, some "outpatient", some "facility", none⟩,
       ⟨some 700, none, some "outpatient", some "facility", none⟩], some "0320"⟩)]
    "71046"
    ⟨some "Chest X-ray two views", "71046",
      [⟨some 100, none, some "outpatient", some "facility", none⟩,
       ⟨some 200, none, some "both", some "facility", none⟩,
       ⟨some 300, none, some "inpatient", some "facility", none⟩,
       ⟨some 400, none, some "outpatient", some "professional", none⟩,
       ⟨some 500, none, some "outpatient", some "facility", none⟩,
       ⟨some 600, none, some "outpatient", some "facility", none⟩,
       ⟨some 700, none, some "outpatient", some "facility", none⟩], some "0320"⟩
    "Chest X-ray two views" (some "outpatient") none rfl rfl (by decide) (by decide)
  rw [h]
  decide

/-! ### Claim C10: None descriptions make lookup and search raise -/

theorem scanEntries_error (kws : List String) (mp : ℚ) :
    ∀ db : DB, (∃ q ∈ db, q.2.description = none) →
      scanEntries kws mp db = .error () := by
  intro db
  induction db with
  | nil =>
    rintro ⟨q, hq, _⟩
    cases hq
  | cons p db ih =>
    rintro ⟨q, hq, hqd⟩
    rcases List.mem_cons.mp hq with hq1 | hq2
    · subst hq1
      obtain ⟨code, entry⟩ := q
      simp only [scanEntries]
      rw [hqd]
    · obtain ⟨code, entry⟩ := p
      cases hd : entry.description with
      | none =>
        simp only [scanEntries]
        rw [hd]
      | some d =>
        have hrest := ih ⟨q, hq2, hqd⟩
        simp only [scanEntries]
        rw [hd, hrest]

theorem scanEntries_isOk_of_all_some (kws : List String) (mp : ℚ) :
    ∀ db : DB, (∀ q ∈ db, (q.2.description).isSome = true) →
      exceptIsOk (scanEntries kws mp db) = true := by
  intro db
  induction db with
  | nil => intro _; rfl
  | cons p db ih =>
    intro h
    obtain ⟨code, entry⟩ := p
    obtain ⟨d, hd⟩ := Option.isSome_iff_exists.mp (h (code, entry) (List.mem_cons_self _ _))
    have hrest := ih (fun q hq => h q (List.mem_cons_of_mem _ hq))
    simp only [scanEntries]
    rw [hd]
    cases hsc : scanEntries kws mp db with
    | error e =>
      rw [hsc] at hrest
      exact absurd hrest (by simp [exceptIsOk])
    | ok l =>
      rfl

theorem find_similar_error_of_none (db : DB) (desc : String) (ceiling : ℚ) (limit : Nat)
    (hbad : ∃ q ∈ db, q.2.description = none) (hkw : keywordsOf desc ≠ []) :
    find_similar_cheaper_codes db desc ceiling limit = .error () := by
  unfold find_similar_cheaper_codes
  have hde : desc ≠ "" := by
    intro he
    subst he
    exact hkw rfl
  have hde' : ¬(desc == "") = true := by simpa using hde
  rw [if_neg hde']
  have hkw' : ¬(keywordsOf desc).isEmpty = true := by
    simpa [List.isEmpty_iff] using hkw
  rw [if_neg hkw']
  rw [scanEntries_error (keywordsOf desc) ceiling db hbad]

theorem lookup_error_of_none (db : DB) (code : String) (p : String × Entry)
    (setting billing_class : Option String)
    (hfind : db.find? (fun q => q.1 == code) = some p) (hdn : p.2.description = none) :
    lookup_hcpcs_code db code setting billing_class = .error () := by
  obtain ⟨k, entry⟩ := p
  unfold lookup_hcpcs_code
  rw [hfind]
  dsimp only
  rw [hdn]

theorem lookup_ok_of_all_some (db : DB) (code : String)
    (setting billing_class : Option String)
    (hall : ∀ q ∈ db, (q.2.description).isSome = true) :
    exceptIsOk (lookup_hcpcs_code db code setting billing_class) = true := by
  unfold lookup_hcpcs_code
  cases hf : db.find? (fun p => p.1 == code) with
  | none => rfl
  | some p =>
    obtain ⟨k, entry⟩ := p
    have hmem := List.mem_of_find?_eq_some hf
    obtain ⟨d, hd⟩ := Option.isSome_iff_exists.mp (hall (k, entry) hmem)
    dsimp only
    rw [hd]
    rfl

/-- Claim C10: a stored `None` description makes `lookup_hcpcs_code` on
that code raise (the log slice `[:60]` hits `None`), and makes
`find_similar_cheaper_codes` raise whenever the query yields any keywords
(the scan lower-cases `None`); both calls return normally whenever every
indexed entry's description is a string. -/
theorem description_none_behavior (db : DB) (code : String) (p : String × Entry)
    (setting billing_class : Option String) (desc : String) (ceiling : ℚ) (limit : Nat) :
    (db.find? (fun q => q.1 == code) = some p → p.2.description = none →
      lookup_hcpcs_code db code setting billing_class = .error ()) ∧
    ((∃ q ∈ db, q.2.description = none) → keywordsOf desc ≠ [] →
      find_similar_cheaper_codes db desc ceiling limit = .error ()) ∧
    ((∀ q ∈ db, (q.2.description).isSome = true) →
      exceptIsOk (lookup_hcpcs_code db code setting billing_class) = true ∧
      exceptIsOk (find_similar_cheaper_codes db desc ceiling limit) = true) := by
  refine ⟨fun hf hdn => lookup_error_of_none db code p setting billing_class hf hdn,
    fun hbad hkw => find_similar_error_of_none db desc ceiling limit hbad hkw,
    fun hall => ⟨lookup_ok_of_all_some db code setting billing_class hall, ?_⟩⟩
  unfold find_similar_cheaper_codes
  by_cases hde : (desc == "") = true
  · rw [if_pos hde]
    rfl
  · rw [if_neg hde]
    by_cases hkw : (keywordsOf desc).isEmpty = true
    · rw [if_pos hkw]
      rfl
    · rw [if_neg hkw]
      have hok := scanEntries_isOk_of_all_some (keywordsOf desc) ceiling db hall
      cases hsc : scanEntries (keywordsOf desc) ceiling db with
      | error e =>
        rw [hsc] at hok
        exact absurd hok (by simp [exceptIsOk])
      | ok l =>
        rfl

/-- Claim C10 witness: an index whose second entry has a `None` description
makes both operations raise; with all descriptions present both return. -/
theorem description_none_behavior_witness :
    lookup_hcpcs_code
      [("G100", ⟨some "gamma delta service", "G100", [], none⟩),
       ("B100", ⟨none, "B100", [], none⟩)] "B100" none none = .error () ∧
    find_similar_cheaper_codes
      [("G100", ⟨some "gamma delta service", "G100", [], none⟩),
       ("B100", ⟨none, "B100", [], none⟩)] "gamma delta service" 100 5 = .error () ∧
    exceptIsOk (lookup_hcpcs_code
      [("G100", ⟨some "gamma delta service", "G100", [], none⟩)] "B100" none none) = true := by
  refine ⟨?_, ?_, ?_⟩
  · exact (description_none_behavior
      [("G100", ⟨some "gamma delta service", "G100", [], none⟩),
       ("B100", ⟨none, "B100", [], none⟩)] "B100" (("B100", ⟨none, "B100", [], none⟩))
      none none "gamma delta service" 100 5).1 (by decide) rfl
  · exact (description_none_behavior
      [("G100", ⟨some "gamma delta service", "G100", [], none⟩),
       ("B100", ⟨none, "B100", [], none⟩)] "B100" (("B100", ⟨none, "B100", [], none⟩))
      none none "gamma delta service" 100 5).2.1
      ⟨("B100", ⟨none, "B100", [], none⟩), by decide, rfl⟩ (by decide)
  · exact ((description_none_behavior
      [("G100", ⟨some "gamma delta service", "G100", [], none⟩)] "B100"
      (("G100", ⟨some "gamma delta service", "G100", [], none⟩))
      none none "gamma delta service" 100 5).2.2 (by decide)).1

/-! ### Claims C1 and C2: find_similar_cheaper_codes -/

theorem qualifiesB_nil_keywords (mp : ℚ) (e : Entry) : qualifiesB [] mp e = false := by
  simp [qualifiesB, entryMatches]

theorem scanEntries_ok_shape (kws : List String) (mp : ℚ) :
    ∀ (db : DB) (l : List AltCandidate), scanEntries kws mp db = .ok l →
      l = (db.filter (fun q => qualifiesB kws mp q.2)).map (candOf kws) := by
  intro db
  induction db with
  | nil =>
    intro l h
    simp only [scanEntries] at h
    injection h with h1
    exact h1.symm
  | cons p db ih =>
    intro l h
    obtain ⟨code, entry⟩ := p
    cases hd : entry.description with
    | none =>
      simp only [scanEntries] at h
      rw [hd] at h
      exact absurd h (fun hh => Except.noConfusion hh)
    | some d =>
      simp only [scanEntries] at h
      rw [hd] at h
      cases hsc : scanEntries kws mp db with
      | error e =>
        rw [hsc] at h
        exact absurd h (fun hh => Except.noConfusion hh)
      | ok l2 =>
        rw [hsc] at h
        have hl2 := ih l2 hsc
        injection h with h1
        rw [List.filter_cons]
        have hsnd : qualifiesB kws mp ((code, entry) : String × Entry).2 =
            qualifiesB kws mp entry := rfl
        rw [hsnd]
        have hm : entryMatches kws entry =
            kws.countP (fun keyword => strContains (pyLower d) keyword) := by
          simp [entryMatches, hd]
        by_cases h2 : kws.countP (fun keyword => strContains (pyLower d) keyword) < 2
        · have hq : qualifiesB kws mp entry = false := by
            have hnot : ¬(2 ≤ entryMatches kws entry) := by rw [hm]; omega
            simp [qualifiesB, hnot]
          rw [if_pos h2] at h1
          have h1' : l2 = l := h1
          rw [hq, if_neg Bool.false_ne_true, ← h1']
          exact hl2
        · by_cases hemp : entry.standard_charges.isEmpty = true
          · have hq : qualifiesB kws mp entry = false := by
              simp [qualifiesB, hemp]
            rw [if_neg h2, if_pos hemp] at h1
            have h1' : l2 = l := h1
            rw [hq, if_neg Bool.false_ne_true, ← h1']
            exact hl2
          · cases hmin : minPrice? entry with
            | none =>
              have hq : qualifiesB kws mp entry = false := by
                simp [qualifiesB, hmin]
              rw [if_neg h2, if_neg hemp, hmin] at h1
              dsimp only at h1
              have h1' : l2 = l := h1
              rw [hq, if_neg Bool.false_ne_true, ← h1']
              exact hl2
            | some m =>
              by_cases hlt : m < mp
              · have hq : qualifiesB kws mp entry = true := by
                  have hle : 2 ≤ entryMatches kws entry := by rw [hm]; omega
                  simp [qualifiesB, hle, hemp, hmin, hlt]
                rw [if_neg h2, if_neg hemp, hmin] at h1
                dsimp only at h1
                rw [if_pos hlt] at h1
                rw [hq, if_pos rfl, ← h1, List.map_cons]
                have hcand : candOf kws (code, entry) =
                    { code := code, description := some d, min_price := m,
                      match_score := kws.countP (fun keyword => strContains (pyLower d) keyword),
                      revenue_code := entry.revenue_code } := by
                  simp [candOf, hd, hmin, hm]
                rw [hcand, hl2]
              · have hq : qualifiesB kws mp entry = false := by
                  simp [qualifiesB, hmin, hlt]
                rw [if_neg h2, if_neg hemp, hmin] at h1
                dsimp only at h1
                rw [if_neg hlt] at h1
                have h1' : l2 = l := h1
                rw [hq, if_neg Bool.false_ne_true, ← h1']
                exact hl2

/-- Claim C2: every returned sequence is ordered by match count descending,
then minimum price ascending among equal match counts, and holds at most
`limit` elements (the Python default for `limit` is 5). -/
theorem find_similar_sorted (db : DB) (desc : String) (ceiling : ℚ) (limit : Nat)
    (res : List AltCandidate)
    (h : find_similar_cheaper_codes db desc ceiling limit = .ok res) :
    List.Pairwise altOrd res ∧ res.length ≤ limit := by
  unfold find_similar_cheaper_codes at h
  by_cases hde : (desc == "") = true
  · rw [if_pos hde] at h
    have hr : ([] : List AltCandidate) = res := Except.ok.inj h
    rw [← hr]
    exact ⟨List.Pairwise.nil, by simp⟩
  · rw [if_neg hde] at h
    by_cases hkw : (keywordsOf desc).isEmpty = true
    · rw [if_pos hkw] at h
      have hr : ([] : List AltCandidate) = res := Except.ok.inj h
      rw [← hr]
      exact ⟨List.Pairwise.nil, by simp⟩
    · rw [if_neg hkw] at h
      cases hsc : scanEntries (keywordsOf desc) ceiling db with
      | error e =>
        rw [hsc] at h
        exact absurd h (fun hh => Except.noConfusion hh)
      | ok l =>
        rw [hsc] at h
        have hr : (List.insertionSort altOrd l).take limit = res := Except.ok.inj h
        rw [← hr]
        constructor
        · exact List.Pairwise.sublist (List.take_sublist _ _)
            (List.sorted_insertionSort altOrd l)
        · rw [List.length_take]
          exact min_le_left _ _

/-- Claim C2 witness: an index with tied match counts; the result is sorted
by match count descending then price ascending, within the limit. -/
theorem find_similar_sorted_witness :
    find_similar_cheaper_codes
      [("T1", ⟨some "alpha beta one", "T1", [⟨some 30, none, none, none, none⟩], none⟩),
       ("T2", ⟨some "alpha beta gamma", "T2", [⟨some 20, none, none, none, none⟩], none⟩),
       ("T3", ⟨some "alpha beta two", "T3", [⟨some 10, none, none, none, none⟩], none⟩)]
      "alpha beta gamma" 100 5 =
      .ok [⟨"T2", some "alpha beta gamma", 20, 3, none⟩,
           ⟨"T3", some "alpha beta two", 10, 2, none⟩,
           ⟨"T1", some "alpha beta one", 30, 2, none⟩] ∧
    List.Pairwise altOrd
      [(⟨"T2", some "alpha beta gamma", 20, 3, none⟩ : AltCandidate),
       ⟨"T3", some "alpha beta two", 10, 2, none⟩,
       ⟨"T1", some "alpha beta one", 30, 2, none⟩] ∧
    ([(⟨"T2", some "alpha beta gamma", 20, 3, none⟩ : AltCandidate),
       ⟨"T3", some "alpha beta two", 10, 2, none⟩,
       ⟨"T1", some "alpha beta one", 30, 2, none⟩]).length ≤ 5 := by
  have hres : find_similar_cheaper_codes
      [("T1", ⟨some "alpha beta one", "T1", [⟨some 30, none, none, none, none⟩], none⟩),
       ("T2", ⟨some "alpha beta gamma", "T2", [⟨some 20, none, none, none, none⟩], none⟩),
       ("T3", ⟨some "alpha beta two", "T3", [⟨some 10, none, none, none, none⟩], none⟩)]
      "alpha beta gamma" 100 5 =
      .ok [⟨"T2", some "alpha beta gamma", 20, 3, none⟩,
           ⟨"T3", some "alpha beta two", 10, 2, none⟩,
           ⟨"T1", some "alpha beta one", 30, 2, none⟩] := by decide
  have h := find_similar_sorted
    [("T1", ⟨some "alpha beta one", "T1", [⟨some 30, none, none, none, none⟩], none⟩),
     ("T2", ⟨some "alpha beta gamma", "T2", [⟨some 20, none, none, none, none⟩], none⟩),
     ("T3", ⟨some "alpha beta two", "T3", [⟨some 10, none, none, none, none⟩], none⟩)]
    "alpha beta gamma" 100 5
    [⟨"T2", some "alpha beta gamma", 20, 3, none⟩,
     ⟨"T3", some "alpha beta two", 10, 2, none⟩,
     ⟨"T1", some "alpha beta one", 30, 2, none⟩] hres
  exact ⟨hres, h.1, h.2⟩

theorem entry_unique {db : DB} (hnd : (db.map Prod.fst).Nodup) {k : String} {a b : Entry}
    (ha : (k, a) ∈ db) (hb : (k, b) ∈ db) : a = b := by
  induction db with
  | nil => cases ha
  | cons p db ih =>
    rw [List.map_cons, List.nodup_cons] at hnd
    rcases List.mem_cons.mp ha with ha1 | ha2
    · rcases List.mem_cons.mp hb with hb1 | hb2
      · exact congrArg Prod.snd (ha1.trans hb1.symm)
      · exfalso
        apply hnd.1
        rw [← ha1]
        exact List.mem_map.mpr ⟨(k, b), hb2, rfl⟩
    · rcases List.mem_cons.mp hb with hb1 | hb2
      · exfalso
        apply hnd.1
        rw [← hb1]
        exact List.mem_map.mpr ⟨(k, a), ha2, rfl⟩
      · exact ih hnd.2 ha2 hb2

/-- Claim C1 (amended): over an index with unique codes, whenever the call
returns (all descriptions present), a returned candidate code always
denotes an entry with ≥ 2 keyword-token hits, a non-empty variant list and
a minimum truthy gross charge strictly below the ceiling; conversely such
an entry's code is guaranteed to be returned only when at most `limit`
entries qualify — with more, the sort-and-truncate step drops qualifying
entries, which the original claim did not allow for. -/
theorem find_similar_membership (db : DB) (desc : String) (ceiling : ℚ) (limit : Nat)
    (code : String) (entry : Entry) (res : List AltCandidate)
    (hnd : (db.map Prod.fst).Nodup)
    (hmem : (code, entry) ∈ db)
    (hres : find_similar_cheaper_codes db desc ceiling limit = .ok res) :
    (qualifiesB (keywordsOf desc) ceiling entry = true →
      db.countP (fun p => qualifiesB (keywordsOf desc) ceiling p.2) ≤ limit →
      code ∈ res.map (fun a => a.code)) ∧
    (qualifiesB (keywordsOf desc) ceiling entry = false →
      code ∉ res.map (fun a => a.code)) := by
  unfold find_similar_cheaper_codes at hres
  by_cases hde : (desc == "") = true
  · rw [if_pos hde] at hres
    have hr : ([] : List AltCandidate) = res := Except.ok.inj hres
    have hdesc : desc = "" := by simpa using hde
    constructor
    · intro hq _
      exfalso
      rw [hdesc] at hq
      rw [show keywordsOf "" = [] from rfl, qualifiesB_nil_keywords] at hq
      cases hq
    · intro _ hin
      rw [← hr] at hin
      cases hin
  · rw [if_neg hde] at hres
    by_cases hkw : (keywordsOf desc).isEmpty = true
    · rw [if_pos hkw] at hres
      have hr : ([] : List AltCandidate) = res := Except.ok.inj hres
      have hkw' : keywordsOf desc = [] := by simpa [List.isEmpty_iff] using hkw
      constructor
      · intro hq _
        exfalso
        rw [hkw', qualifiesB_nil_keywords] at hq
        cases hq
      · intro _ hin
        rw [← hr] at hin
        cases hin
    · rw [if_neg hkw] at hres
      cases hsc : scanEntries (keywordsOf desc) ceiling db with
      | error e =>
        rw [hsc] at hres
        exact absurd hres (fun hh => Except.noConfusion hh)
      | ok l =>
        rw [hsc] at hres
        have hr : (List.insertionSort altOrd l).take limit = res := Except.ok.inj hres
        have hshape := scanEntries_ok_shape (keywordsOf desc) ceiling db l hsc
        have hperm := List.perm_insertionSort altOrd l
        constructor
        · intro hq hcount
          have hlen : l.length = db.countP (fun p => qualifiesB (keywordsOf desc) ceiling p.2) := by
            rw [hshape, List.length_map, ← List.countP_eq_length_filter]
          have htake : (List.insertionSort altOrd l).take limit = List.insertionSort altOrd l := by
            apply List.take_of_length_le
            rw [hperm.length_eq, hlen]
            exact hcount
          have hcand : candOf (keywordsOf desc) (code, entry) ∈ l := by
            rw [hshape]
            apply List.mem_map_of_mem
            rw [List.mem_filter]
            exact ⟨hmem, hq⟩
          have hsortmem : candOf (keywordsOf desc) (code, entry) ∈ List.insertionSort altOrd l :=
            hperm.mem_iff.mpr hcand
          rw [← hr, htake]
          exact List.mem_map.mpr ⟨candOf (keywordsOf desc) (code, entry), hsortmem, rfl⟩
        · intro hq hin
          rw [← hr] at hin
          obtain ⟨a, ha, hac⟩ := List.mem_map.mp hin
          have ha2 : a ∈ List.insertionSort altOrd l := List.take_subset _ _ ha
          have ha3 : a ∈ l := hperm.mem_iff.mp ha2
          rw [hshape] at ha3
          obtain ⟨p, hp, hgp⟩ := List.mem_map.mp ha3
          have hp2 := List.mem_filter.mp hp
          obtain ⟨pk, pe⟩ := p
          have hpk : pk = code := by
            have : (candOf (keywordsOf desc) (pk, pe)).code = pk := rfl
            rw [hgp] at this
            rw [← this, hac]
          rw [hpk] at hp2
          have hpe := entry_unique hnd hmem hp2.1
          have hfinal : qualifiesB (keywordsOf desc) ceiling pe = true := hp2.2
          rw [← hpe, hq] at hfinal
          exact Bool.false_ne_true hfinal

/-- Claim C1 counterexample: with the default limit 5, an index holding six
entries that all carry two keyword hits and a minimum price below the
ceiling returns only five of them; entry "c6" satisfies the claim's
inclusion condition yet is excluded, so inclusion does not hold "exactly
when" at least two keywords match. -/
theorem find_similar_truncation_counterexample :
    qualifiesB (keywordsOf "alpha beta")
      100 (⟨some "alpha beta six", "c6", [⟨some 6, none, none, none, none⟩], none⟩ : Entry) = true ∧
    (find_similar_cheaper_codes
      [("c1", ⟨some "alpha beta one", "c1", [⟨some 1, none, none, none, none⟩], none⟩),
       ("c2", ⟨some "alpha beta two", "c2", [⟨some 2, none, none, none, none⟩], none⟩),
       ("c3", ⟨some "alpha beta three", "c3", [⟨some 3, none, none, none, none⟩], none⟩),
       ("c4", ⟨some "alpha beta four", "c4", [⟨some 4, none, none, none, none⟩], none⟩),
       ("c5", ⟨some "alpha beta five", "c5", [⟨some 5, none, none, none, none⟩], none⟩),
       ("c6", ⟨some "alpha beta six", "c6", [⟨some 6, none, none, none, none⟩], none⟩)]
      "alpha beta" 100 5).map (fun l => l.map (fun a => a.code)) =
      .ok ["c1", "c2", "c3", "c4", "c5"] := by
  constructor
  · decide
  · decide

/-- Claim C1 witness: a two-entry index where one entry has two keyword
hits below the ceiling and the other only one hit; the first code is
returned, the second is not. -/
theorem find_similar_membership_witness :
    "W1" ∈ (([⟨"W1", some "alpha beta service", 10, 2, none⟩] : List AltCandidate).map
      (fun a => a.code)) ∧
    "W2" ∉ (([⟨"W1", some "alpha beta service", 10, 2, none⟩] : List AltCandidate).map
      (fun a => a.code)) := by
  have hres : find_similar_cheaper_codes
      [("W1", ⟨some "alpha beta service", "W1", [⟨some 10, none, none, none, none⟩], none⟩),
       ("W2", ⟨some "alpha support", "W2", [⟨some 5, none, none, none, none⟩], none⟩)]
      "alpha beta" 100 5 = .ok [⟨"W1", some "alpha beta service", 10, 2, none⟩] := by decide
  constructor
  · exact (find_similar_membership
      [("W1", ⟨some "alpha beta service", "W1", [⟨some 10, none, none, none, none⟩], none⟩),
       ("W2", ⟨some "alpha support", "W2", [⟨some 5, none, none, none, none⟩], none⟩)]
      "alpha beta" 100 5 "W1"
      ⟨some "alpha beta service", "W1", [⟨some 10, none, none, none, none⟩], none⟩
      [⟨"W1", some "alpha beta service", 10, 2, none⟩]
      (by decide) (by decide) hres).1 (by decide) (by decide)
  · exact (find_similar_membership
      [("W1", ⟨some "alpha beta service", "W1", [⟨some 10, none, none, none, none⟩], none⟩),
       ("W2", ⟨some "alpha support", "W2", [⟨some 5, none, none, none, none⟩], none⟩)]
      "alpha beta" 100 5 "W2"
      ⟨some "alpha support", "W2", [⟨some 5, none, none, none, none⟩], none⟩
      [⟨"W1", some "alpha beta service", 10, 2, none⟩]
      (by decide) (by decide) hres).2 (by decide)

/-! ### Claim C3: the merge step of analyze_bill -/

theorem merge_foldl (vmap : List (String × CodeValidation)) :
    ∀ (codes : List HCPCSCode) (acc : List CodeAnalysis × ℚ),
      codes.foldl (mergeStep vmap) acc =
        (acc.1 ++ codes.map (analysisOf vmap),
         acc.2 + (((codes.map (analysisOf vmap)).filter
           (fun a => a.status == "disputed")).map (fun a => a.billed_charge)).sum) := by
  intro codes
  induction codes with
  | nil => intro acc; simp
  | cons hcpcs codes ih =>
    intro acc
    rw [List.foldl_cons, ih (mergeStep vmap acc hcpcs)]
    unfold mergeStep
    dsimp only
    rw [List.map_cons, List.filter_cons]
    by_cases hd : ((analysisOf vmap hcpcs).status == "disputed") = true
    · rw [if_pos hd, if_pos hd]
      rw [List.map_cons, List.sum_cons]
      rw [Prod.mk.injEq]
      refine ⟨?_, ?_⟩
      · rw [List.append_assoc]
        rfl
      · dsimp only
        ring
    · rw [if_neg hd, if_neg hd]
      rw [Prod.mk.injEq]
      refine ⟨?_, ?_⟩
      · rw [List.append_assoc]
        rfl
      · rfl

/-- Claim C3: the merge step yields exactly one result entry per physical
line-item occurrence, in extraction order; an instance whose code has no
validation result gets status "accepted" with the generic reasoning
string; and `savings` is the sum of the parsed billed charges of exactly
the disputed instances. -/
theorem analyze_merge_spec (codes : List HCPCSCode) (validations : List CodeValidation) :
    (analyze_merge codes validations).1.length = codes.length ∧
    (∀ i : Nat, ((analyze_merge codes validations).1[i]?).map (fun a => a.code) =
      (codes[i]?).map (fun h => h.code)) ∧
    (∀ i : Nat, ∀ hc : HCPCSCode, codes[i]? = some hc →
      vget? (validation_map validations) hc.code = none →
      ∃ a, (analyze_merge codes validations).1[i]? = some a ∧
        a.status = "accepted" ∧ a.reasoning = "No validation issues found." ∧
        a.billed_charge = parse_charge hc.charge) ∧
    (analyze_merge codes validations).2 =
      (((analyze_merge codes validations).1.filter (fun a => a.status == "disputed")).map
        (fun a => a.billed_charge)).sum := by
  have hm := merge_foldl (validation_map validations) codes ([], 0)
  have h1 : (analyze_merge codes validations).1 =
      codes.map (analysisOf (validation_map validations)) := by
    unfold analyze_merge
    rw [hm]
    exact List.nil_append _
  have h2 : (analyze_merge codes validations).2 =
      (((codes.map (analysisOf (validation_map validations))).filter
        (fun a => a.status == "disputed")).map (fun a => a.billed_charge)).sum := by
    unfold analyze_merge
    rw [hm]
    exact zero_add _
  refine ⟨?_, ?_, ?_, ?_⟩
  · rw [h1, List.length_map]
  · intro i
    rw [h1, List.getElem?_map, Option.map_map]
    cases hio : codes[i]? with
    | none => rfl
    | some hc => rfl
  · intro i hc hio hvi
    rw [h1, List.getElem?_map, hio]
    refine ⟨analysisOf (validation_map validations) hc, rfl, ?_, ?_, rfl⟩
    · simp [analysisOf, hvi]
    · simp [analysisOf, hvi]
  · rw [h2, h1]

/-- Claim C3 witness: two instances, one disputed via validation, one with
no validation result; the merged list has one entry per instance in order
and the fallback instance is accepted with the generic reasoning. -/
theorem analyze_merge_spec_witness :
    (analyze_merge
      [⟨"C1", some "IV push", some "$10", none, none⟩, ⟨"C2", some "X-ray", none, none, none⟩]
      [⟨"C1", "disputed", "overpriced"⟩]).1.length = 2 ∧
    ((analyze_merge
      [⟨"C1", some "IV push", some "$10", none, none⟩, ⟨"C2", some "X-ray", none, none, none⟩]
      [⟨"C1", "disputed", "overpriced"⟩]).1[1]?).map (fun a => a.status) = some "accepted" ∧
    ((analyze_merge
      [⟨"C1", some "IV push", some "$10", none, none⟩, ⟨"C2", some "X-ray", none, none, none⟩]
      [⟨"C1", "disputed", "overpriced"⟩]).1[1]?).map (fun a => a.reasoning) =
      some "No validation issues found." := by
  have h := analyze_merge_spec
    [⟨"C1", some "IV push", some "$10", none, none⟩, ⟨"C2", some "X-ray", none, none, none⟩]
    [⟨"C1", "disputed", "overpriced"⟩]
  obtain ⟨a, ha, hs, hr, _⟩ := h.2.2.1 1 ⟨"C2", some "X-ray", none, none, none⟩ rfl (by decide)
  refine ⟨?_, ?_, ?_⟩
  · rw [h.1]
    rfl
  · simp [ha, hs]
  · simp [ha, hr]

end MedicalAgent
